import Mathlib

/-!
Verification development for the Backuper repository (mare5x/Backuper).

Shallow embedding of the reconciliation engine found in `src/backuper/`:
the three-way download decision (`filecrawler.DriveFileCrawler.is_for_download`),
the path blacklist (`settings.Settings`), the local upload crawler
(`filecrawler.LocalFileCrawler` together with `uploader.DBDriveUploader`),
the retry decorator (`googledrive.handle_http_error`), the transfer queue
workers (`uploader.DriveUploader` / `downloader.DriveDownloader`), the
remote change poll (`DriveFileCrawler.get_changes_to_download`) and the
removed-items reconciliation (`backuper.Backuper.blacklist_removed_from_gd`).

Local filesystem paths are modelled as lists of path components
(`Path := List String`); the external `pytools.filetools.parent_dir`
drops the last component and is a fixpoint at the root `[]`, matching
`os.path` semantics for canonical absolute paths.  `db.unify_path` is the
identity on this canonical representation.  Database rows as stored in
SQLite (where the `path` column is text and queries such as
`path.contains(...)` are textual) are modelled separately with
`List Char` paths.  Timestamps are integers, md5 checksums are strings.
-/

namespace Backuper

/-- Filesystem paths, as lists of path components of a canonical
(`db.unify_path`-normal) absolute path. The root is `[]`. -/
abbrev Path := List String

/-- Metadata of an existing filesystem entry: `os.path.isdir`,
`ft.date_modified` and `ft.md5sum` of the path. -/
structure FInfo where
  isdir : Bool
  mtime : Int
  md5 : String
  deriving DecidableEq, Repr

/-- The local filesystem: `none` means the path does not exist
(`os.path.exists` is false). -/
abbrev Fs := Path → Option FInfo

/-- Model of `os.path.isdir`: false for a missing path. -/
def isdirFs (fs : Fs) (p : Path) : Bool :=
  ((fs p).map FInfo.isdir).getD false

/-- Model of `ft.date_modified`. The source only calls it on paths that
exist (walk results, or after an `os.path.exists` guard); the default is
never relevant under the theorems' hypotheses. -/
def date_modified (fs : Fs) (p : Path) : Int :=
  ((fs p).map FInfo.mtime).getD 0

/-- Model of `ft.md5sum`, same existence convention as `date_modified`. -/
def md5sumFs (fs : Fs) (p : Path) : String :=
  ((fs p).map FInfo.md5).getD ""

/-- One row of the `DriveArchive` table (`database.py`), crawler view:
`path` (unique), `drive_id` (unique), `date_modified_on_disk`, `md5sum`. -/
structure ArchiveRecord where
  path : Path
  drive_id : String
  date_modified_on_disk : Int
  md5sum : String
  deriving DecidableEq, Repr

/-- `GoogleDriveDB.FOLDER_MD5`: the shared sentinel checksum for folders. -/
def FOLDER_MD5 : String := ""

/-! ### Settings / blacklist (`settings.py`) -/

/-- Model of `os.path.basename` on component paths. -/
def basename (p : Path) : String := p.getLastD ""

/-- Model of `pytools.filetools.parent_dir` (external collaborator):
drops the last component; the root is its own parent. -/
def parent_dir (p : Path) : Path := p.dropLast

/-- `Settings.contains_blacklisted_rules`: the compiled disjunction of the
`blacklisted_rules` wildcard patterns, full-matched against the basename.
The compiled regex is abstracted as the predicate `rules` on basenames. -/
def contains_blacklisted_rules (rules : String → Bool) (p : Path) : Bool :=
  rules (basename p)

/-- `Settings.is_blacklisted`: the path is itself listed in
`blacklisted_paths`, or its basename matches a pattern rule.
(`db.unify_path` is the identity on the canonical representation.) -/
def is_blacklisted (bl : List Path) (rules : String → Bool) (p : Path) : Bool :=
  bl.contains p || contains_blacklisted_rules rules p

/-- `Settings.is_blacklisted_parent`: walk from `p` toward the root,
returning false at any member of `stop` (the configured sync roots),
true at the first blacklisted path, false at the root. -/
def is_blacklisted_parent (bl : List Path) (rules : String → Bool)
    (stop : List Path) (p : Path) : Bool :=
  if p ∈ stop then false
  else if is_blacklisted bl rules p then true
  else
    let par := parent_dir p
    if _h : par = p then false
    else is_blacklisted_parent bl rules stop par
  termination_by p.length
  decreasing_by
    cases p with
    | nil => exact absurd rfl _h
    | cons a l =>
        simp only [parent_dir, List.length_dropLast, List.length_cons]
        omega

/-- `Settings.blacklist_path`: no-op for a non-existent path; otherwise add
`entry` to the blacklist set unless `is_blacklisted_parent` already holds.
The Python `set.add` is modelled as a guarded insert. -/
def blacklist_path (existsFs : Path → Bool) (rules : String → Bool)
    (stop : List Path) (bl : List Path) (entry : Path) : List Path :=
  if !existsFs entry then bl
  else if !is_blacklisted_parent bl rules stop entry then
    (if entry ∈ bl then bl else entry :: bl)
  else bl

/-- `Settings.clean_blacklisted_paths`: keep only entries that exist on
disk and whose parent chain (from the entry's parent up to a sync root)
is not already blacklisted; the checks run against the old set. -/
def clean_blacklisted_paths (existsFs : Path → Bool) (rules : String → Bool)
    (stop : List Path) (bl : List Path) : List Path :=
  bl.filter (fun entry =>
    existsFs entry && !is_blacklisted_parent bl rules stop (parent_dir entry))

/-! ### Three-way download decision (`filecrawler.DriveFileCrawler`) -/

/-- `DriveFileCrawler.CONFLICT_FLAG`. -/
def CONFLICT_FLAG : Int := -1
/-- `DriveFileCrawler.NEUTRAL_FLAG`. -/
def NEUTRAL_FLAG : Int := 0
/-- `DriveFileCrawler.SAFE_FLAG`. -/
def SAFE_FLAG : Int := 1

/-- Environment of `is_for_download`: the archive table keyed by
`drive_id` (`db.GoogleDriveDB.get("drive_id", ...)`), the settings
blacklist, and the local filesystem. -/
structure DownloadEnv where
  dbById : String → Option ArchiveRecord
  bl : List Path
  rules : String → Bool
  fs : Fs

/-- `DriveFileCrawler.is_for_download(file_id, file_md5, remote_time)`,
translated clause by clause from `filecrawler.py`:
no archive record → SAFE; blacklisted archived path → NEUTRAL; archived
path missing on disk → CONFLICT; otherwise the p/q/r md5 truth table,
with the remote-time override in the all-different branch. -/
def is_for_download (env : DownloadEnv) (file_id : String)
    (file_md5 : String) (remote_time : Option Int) : Int :=
  match env.dbById file_id with
  | some db_entry =>
    if is_blacklisted env.bl env.rules db_entry.path then NEUTRAL_FLAG
    else
      match env.fs db_entry.path with
      | none => CONFLICT_FLAG
      | some info =>
        let local_md5 := info.md5
        let p := file_md5 == db_entry.md5sum
        let q := file_md5 == local_md5
        let r := local_md5 == db_entry.md5sum
        if p || q then NEUTRAL_FLAG
        else if r then SAFE_FLAG
        else
          match remote_time with
          | some t =>
            if t < db_entry.date_modified_on_disk || t < info.mtime then
              NEUTRAL_FLAG
            else CONFLICT_FLAG
          | none => CONFLICT_FLAG
  | none => SAFE_FLAG

/-- C1: for a remote file id with an archive record whose non-blacklisted
archived path exists on disk, `is_for_download` is total (always one of
the three flags) and follows the decision table: NONE when the remote
hash equals the archived or the local hash; SAFE when both fail and the
local hash equals the archived hash; CONFLICT when all three hashes
differ pairwise and no remote time is given; NONE when all three agree. -/
theorem c1_three_way_diff_table (env : DownloadEnv) (file_id file_md5 : String)
    (rt : Option Int) (e : ArchiveRecord) (info : FInfo)
    (hdb : env.dbById file_id = some e)
    (hbl : is_blacklisted env.bl env.rules e.path = false)
    (hfs : env.fs e.path = some info) :
    (is_for_download env file_id file_md5 rt = NEUTRAL_FLAG ∨
     is_for_download env file_id file_md5 rt = SAFE_FLAG ∨
     is_for_download env file_id file_md5 rt = CONFLICT_FLAG) ∧
    ((file_md5 = e.md5sum ∨ file_md5 = info.md5) →
      is_for_download env file_id file_md5 rt = NEUTRAL_FLAG) ∧
    (file_md5 ≠ e.md5sum → file_md5 ≠ info.md5 → info.md5 = e.md5sum →
      is_for_download env file_id file_md5 rt = SAFE_FLAG) ∧
    (file_md5 ≠ e.md5sum → file_md5 ≠ info.md5 → info.md5 ≠ e.md5sum →
      rt = none →
      is_for_download env file_id file_md5 rt = CONFLICT_FLAG) ∧
    (file_md5 = e.md5sum → file_md5 = info.md5 → info.md5 = e.md5sum →
      is_for_download env file_id file_md5 rt = NEUTRAL_FLAG) := by
  unfold is_for_download
  simp only [hdb, hbl, hfs, Bool.false_eq_true, if_false]
  refine ⟨?_, ?_, ?_, ?_, ?_⟩
  · by_cases h1 : (file_md5 == e.md5sum || file_md5 == info.md5) = true
    · simp [h1]
    · by_cases h2 : (info.md5 == e.md5sum) = true
      · simp [h1, h2]
      · cases rt with
        | none => simp [h1, h2]
        | some t =>
          by_cases h3 :
              (decide (t < e.date_modified_on_disk) || decide (t < info.mtime)) = true
          · simp [h1, h2, h3]
          · simp [h1, h2, h3]
  · rintro (hp | hq)
    · simp [hp]
    · simp [hq]
  · intro hp hq hr
    simp [hp, hq, hr]
  · intro hp hq hr hrt
    subst hrt
    simp [hp, hq, hr]
  · intro hp _ _
    simp [hp]

/-- Witness for C1 at a concrete environment: record present, not
blacklisted, file on disk, all three hashes pairwise different, no
remote time: the decision is CONFLICT (and total). -/
theorem c1_three_way_diff_table_witness :
    (is_for_download
      { dbById := fun i => if i = "id1" then some ⟨["f"], "id1", 10, "A"⟩ else none,
        bl := [], rules := fun _ => false,
        fs := fun p => if p = ["f"] then some ⟨false, 10, "C"⟩ else none }
      "id1" "B" none = CONFLICT_FLAG) := by
  have h := c1_three_way_diff_table
    { dbById := fun i => if i = "id1" then some ⟨["f"], "id1", 10, "A"⟩ else none,
      bl := [], rules := fun _ => false,
      fs := fun p => if p = ["f"] then some ⟨false, 10, "C"⟩ else none }
    "id1" "B" none ⟨["f"], "id1", 10, "A"⟩ ⟨false, 10, "C"⟩
    (by decide) (by decide) (by decide)
  exact h.2.2.2.1 (by decide) (by decide) (by decide) rfl

/-- C3 counterexample: an archive record whose non-blacklisted local path
is missing on disk, with a remote modification time (5) strictly older
than the record's last recorded sync activity
(`date_modified_on_disk = 10`): `is_for_download` still returns CONFLICT,
not NONE as the claim states. -/
theorem c3_missing_path_counterexample :
    (fun i => if i = "id1" then some (⟨["f"], "id1", 10, "h"⟩ : ArchiveRecord)
              else none) "id1" = some ⟨["f"], "id1", 10, "h"⟩ ∧
    is_blacklisted [] (fun _ => false) ["f"] = false ∧
    (fun (_ : Path) => (none : Option FInfo)) ["f"] = none ∧
    (5 : Int) < 10 ∧
    is_for_download
      { dbById := fun i => if i = "id1" then some ⟨["f"], "id1", 10, "h"⟩ else none,
        bl := [], rules := fun _ => false, fs := fun _ => none }
      "id1" "B" (some 5) = CONFLICT_FLAG ∧
    CONFLICT_FLAG ≠ NEUTRAL_FLAG := by
  refine ⟨rfl, by decide, rfl, by decide, ?_, by decide⟩
  rfl

/-- C3 amended: when the archive record exists, its path is not
blacklisted, and the path no longer exists on disk, `is_for_download`
returns CONFLICT unconditionally — for every remote hash and every
optional remote modification time.  (The remote-time override to NONE
lives only in the branch where the path exists and all three hashes
differ; stale changes are instead skipped upstream by
`get_changes_to_download`'s last-download-sync-time filter.) -/
theorem c3_missing_path_always_conflict (env : DownloadEnv)
    (file_id file_md5 : String) (rt : Option Int) (e : ArchiveRecord)
    (hdb : env.dbById file_id = some e)
    (hbl : is_blacklisted env.bl env.rules e.path = false)
    (hfs : env.fs e.path = none) :
    is_for_download env file_id file_md5 rt = CONFLICT_FLAG := by
  unfold is_for_download
  simp [hdb, hbl, hfs]

/-- Witness for the amended C3 at the concrete environment of the
counterexample. -/
theorem c3_missing_path_always_conflict_witness :
    is_for_download
      { dbById := fun i => if i = "id1" then some ⟨["f"], "id1", 10, "h"⟩ else none,
        bl := [], rules := fun _ => false, fs := fun _ => none }
      "id1" "B" (some 5) = CONFLICT_FLAG :=
  c3_missing_path_always_conflict _ "id1" "B" (some 5)
    ⟨["f"], "id1", 10, "h"⟩ rfl (by decide) rfl

/-- Helper: a proper prefix is still a prefix of `dropLast`. -/
theorem prefix_dropLast_of_lt {a p : Path} (hpre : a <+: p)
    (hlt : a.length < p.length) : a <+: p.dropLast := by
  obtain ⟨t, rfl⟩ := hpre
  have ht : t ≠ [] := by
    intro h
    subst h
    simp at hlt
  rw [List.dropLast_append_of_ne_nil a ht]
  exact List.prefix_append a t.dropLast

/-- Helper (fuel-indexed): ancestor-closure of `is_blacklisted_parent`.
If some prefix `a` of `p` is blacklisted and no path between `p` and `a`
(inclusive) is a configured sync root, the ancestor walk answers true. -/
theorem is_blacklisted_parent_closure_aux (bl : List Path)
    (rules : String → Bool) (stop : List Path) :
    ∀ (n : Nat) (p a : Path), p.length ≤ n → a <+: p →
      is_blacklisted bl rules a = true →
      (∀ q : Path, a <+: q → q <+: p → q ∉ stop) →
      is_blacklisted_parent bl rules stop p = true := by
  intro n
  induction n with
  | zero =>
    intro p a hlen hpre hbl hstop
    have hp : p = [] := List.eq_nil_of_length_eq_zero (Nat.le_zero.mp hlen)
    subst hp
    have ha : a = [] := List.eq_nil_of_prefix_nil hpre
    subst ha
    rw [is_blacklisted_parent]
    have : ([] : Path) ∉ stop := hstop [] List.prefix_rfl List.prefix_rfl
    simp [this, hbl]
  | succ n ih =>
    intro p a hlen hpre hbl hstop
    rw [is_blacklisted_parent]
    have hpstop : p ∉ stop := hstop p hpre List.prefix_rfl
    by_cases hbp : is_blacklisted bl rules p = true
    · simp [hpstop, hbp]
    · have hne : a ≠ p := by
        intro h
        subst h
        exact hbp hbl
      have hlt : a.length < p.length := by
        rcases Nat.lt_or_ge a.length p.length with h | h
        · exact h
        · exact absurd (hpre.eq_of_length (Nat.le_antisymm hpre.length_le h)) hne
      have hpnil : p ≠ [] := by
        intro h
        subst h
        simp at hlt
      have hpar : parent_dir p ≠ p := by
        intro h
        have := congrArg List.length h
        rw [parent_dir, List.length_dropLast] at this
        omega
      simp only [hpstop, if_false, hbp, Bool.false_eq_true, hpar, dite_false]
      apply ih (parent_dir p) a
      · rw [parent_dir, List.length_dropLast]
        omega
      · exact prefix_dropLast_of_lt hpre hlt
      · exact hbl
      · intro q hq1 hq2
        have hdp := List.dropLast_prefix p
        exact hstop q hq1 (hq2.trans hdp)

/-- C6 counterexample: with blacklist `{["a"]}`, no pattern rules and no
sync roots, the path `["a","b"]` has the blacklisted ancestor `["a"]`
(which is not a sync root), yet `is_blacklisted` — the claim's exclusion
predicate — returns false: `Settings.is_blacklisted` performs no
ancestor walk (closure lives in `is_blacklisted_parent`). -/
theorem c6_is_blacklisted_counterexample :
    (["a"] : Path) <+: ["a", "b"] ∧
    is_blacklisted [["a"]] (fun _ => false) ["a"] = true ∧
    (["a"] : Path) ∉ ([] : List Path) ∧
    is_blacklisted [["a"]] (fun _ => false) ["a", "b"] = false := by
  refine ⟨⟨["b"], rfl⟩, by decide, by decide, by decide⟩

/-- C6 amended: the ancestor-closed exclusion predicate is
`is_blacklisted_parent`: for every path `p` with an ancestor (prefix) `a`
satisfying `is_blacklisted`, such that no path from `p` up to and
including `a` is a configured sync root, `is_blacklisted_parent` returns
true. -/
theorem c6_blacklist_closure (bl : List Path) (rules : String → Bool)
    (stop : List Path) (p a : Path) (hpre : a <+: p)
    (hbl : is_blacklisted bl rules a = true)
    (hstop : ∀ q : Path, a <+: q → q <+: p → q ∉ stop) :
    is_blacklisted_parent bl rules stop p = true :=
  is_blacklisted_parent_closure_aux bl rules stop p.length p a
    (Nat.le_refl _) hpre hbl hstop

/-- Witness for the amended C6 at the counterexample's concrete data. -/
theorem c6_blacklist_closure_witness :
    is_blacklisted_parent [["a"]] (fun _ => false) [] ["a", "b"] = true :=
  c6_blacklist_closure [["a"]] (fun _ => false) [] ["a", "b"] ["a"]
    ⟨["b"], rfl⟩ (by decide) (fun q _ _ => List.not_mem_nil q)

/-- C10: `blacklist_path` is idempotent; it leaves the blacklist set
unchanged whenever an ancestor of the path (with the chain up to it
avoiding the sync roots) is already excluded; and
`clean_blacklisted_paths` drops every entry that no longer exists on disk
or whose parent chain is already excluded. -/
theorem c10_blacklist_path_props (existsFs : Path → Bool)
    (rules : String → Bool) (stop bl : List Path) (p : Path) :
    (blacklist_path existsFs rules stop
        (blacklist_path existsFs rules stop bl p) p
      = blacklist_path existsFs rules stop bl p) ∧
    (∀ a : Path, a <+: p → is_blacklisted bl rules a = true →
      (∀ q : Path, a <+: q → q <+: p → q ∉ stop) →
      blacklist_path existsFs rules stop bl p = bl) ∧
    (∀ e : Path,
      existsFs e = false ∨
        is_blacklisted_parent bl rules stop (parent_dir e) = true →
      e ∉ clean_blacklisted_paths existsFs rules stop bl) := by
  refine ⟨?_, ?_, ?_⟩
  · by_cases hex : existsFs p = true
    · by_cases hbp : is_blacklisted_parent bl rules stop p = true
      · simp [blacklist_path, hex, hbp]
      · by_cases hmem : p ∈ bl
        · simp [blacklist_path, hex, hbp, hmem]
        · have h1 : blacklist_path existsFs rules stop bl p = p :: bl := by
            simp [blacklist_path, hex, hbp, hmem]
          rw [h1]
          by_cases hstop : p ∈ stop
          · have : is_blacklisted_parent (p :: bl) rules stop p = false := by
              rw [is_blacklisted_parent]
              simp [hstop]
            simp [blacklist_path, hex, this]
          · have : is_blacklisted_parent (p :: bl) rules stop p = true := by
              rw [is_blacklisted_parent]
              simp [hstop, is_blacklisted]
            simp [blacklist_path, hex, this]
    · simp [blacklist_path, hex]
  · intro a hpre hbl hstop
    have h := is_blacklisted_parent_closure_aux bl rules stop p.length p a
      (Nat.le_refl _) hpre hbl hstop
    simp [blacklist_path, h]
  · intro e he
    simp only [clean_blacklisted_paths, List.mem_filter, not_and]
    intro _
    rcases he with h | h
    · simp [h]
    · simp [h]

/-- Witness for C10 at concrete data: blacklist `{["a"]}`, everything
exists on disk, no rules, no sync roots.  Adding `["a","b"]` (whose
ancestor `["a"]` is blacklisted) is a no-op, adding is idempotent, and
compaction drops the entry `["a","b","c"]` whose parent chain is
excluded. -/
theorem c10_blacklist_path_props_witness :
    (blacklist_path (fun _ => true) (fun _ => false) []
        (blacklist_path (fun _ => true) (fun _ => false) [] [["a"]] ["a", "b"])
        ["a", "b"]
      = blacklist_path (fun _ => true) (fun _ => false) [] [["a"]] ["a", "b"]) ∧
    blacklist_path (fun _ => true) (fun _ => false) [] [["a"]] ["a", "b"] = [["a"]] ∧
    (["a", "b", "c"] : Path) ∉
      clean_blacklisted_paths (fun _ => true) (fun _ => false) []
        [["a"], ["a", "b", "c"]] := by
  have h := c10_blacklist_path_props (fun _ => true) (fun _ => false) []
    [["a"]] ["a", "b"]
  refine ⟨h.1, ?_, ?_⟩
  · exact h.2.1 ["a"] ⟨["b"], rfl⟩ (by decide) (fun q _ _ => List.not_mem_nil q)
  · have h2 := c10_blacklist_path_props (fun _ => true) (fun _ => false) []
      [["a"], ["a", "b", "c"]] ["x"]
    apply h2.2.2 ["a", "b", "c"]
    right
    apply is_blacklisted_parent_closure_aux _ _ _ (["a", "b"] : Path).length _ ["a"]
      (Nat.le_refl _) ⟨["b"], rfl⟩ (by decide)
    exact fun q _ _ => List.not_mem_nil q

/-! ### Local crawler and database-aware uploader
(`filecrawler.LocalFileCrawler`, `uploader.DBDriveUploader`) -/

/-- The archive table keyed by unified local path
(`db.GoogleDriveDB.get("path", ...)`). -/
abbrev DbByPath := Path → Option ArchiveRecord

/-- `LocalFileCrawler.is_for_sync(path)`: no archive record → sync; a
recorded folder → never; a recorded file → sync iff the on-disk
modification time is strictly newer than the recorded one. -/
def is_for_sync (dbp : DbByPath) (fs : Fs) (path : Path) : Bool :=
  match dbp path with
  | some archive =>
    if isdirFs fs path then false
    else decide (date_modified fs path > archive.date_modified_on_disk)
  | none => true

/-- `LocalFileCrawler.get_folders_to_sync`: the `os.walk` traversal
(restricted to non-blacklisted directories) is abstracted as the input
list `walkDirs`; the function yields those roots passing `is_for_sync`. -/
def get_folders_to_sync (dbp : DbByPath) (fs : Fs)
    (walkDirs : List Path) : List Path :=
  walkDirs.filter (is_for_sync dbp fs)

/-- `LocalFileCrawler.get_files_to_sync`: same abstraction for the file
entries of the walk. -/
def get_files_to_sync (dbp : DbByPath) (fs : Fs)
    (walkFiles : List Path) : List Path :=
  walkFiles.filter (is_for_sync dbp fs)

/-- `DBDriveUploader.create_dir`: if the path already has an archive
record, do nothing to the table; otherwise create the remote folder
(fresh id via `newId`) and `db.create` a record with the on-disk
modification time and the folder md5 sentinel. -/
def create_dir (fs : Fs) (newId : Path → String) (dbp : DbByPath)
    (p : Path) : DbByPath :=
  match dbp p with
  | some _ => dbp
  | none =>
    fun q => if q = p then
        some ⟨p, newId p, date_modified fs p, FOLDER_MD5⟩
      else dbp q

/-- `DBDriveUploader.upload_file`: upload (updating the existing remote
file when a record exists, else creating a fresh id) and
`db.create_or_update` the record with the current on-disk modification
time and md5. -/
def upload_file (fs : Fs) (newId : Path → String) (dbp : DbByPath)
    (p : Path) : DbByPath :=
  let file_id := match dbp p with
    | some a => a.drive_id
    | none => newId p
  fun q => if q = p then
      some ⟨p, file_id, date_modified fs p, md5sumFs fs p⟩
    else dbp q

/-- Folder phase of `Backuper.upload_changes` /
`Backuper._upload_folder_structure`: lazily consume
`get_folders_to_sync` and `create_dir` each yielded folder. -/
def upload_folder_structure (fs : Fs) (newId : Path → String)
    (dbp : DbByPath) : List Path → DbByPath
  | [] => dbp
  | p :: rest =>
    if is_for_sync dbp fs p then
      upload_folder_structure fs newId (create_dir fs newId dbp p) rest
    else upload_folder_structure fs newId dbp rest

/-- File phase of `Backuper.upload_changes`: lazily consume
`get_files_to_sync`, enqueueing each yielded file; queue workers run
`upload_file`.  Modelled as the sequential composition of the per-file
effects (each file is consumed exactly once and the records of distinct
paths are independent). -/
def upload_files_phase (fs : Fs) (newId : Path → String)
    (dbp : DbByPath) : List Path → DbByPath
  | [] => dbp
  | p :: rest =>
    if is_for_sync dbp fs p then
      upload_files_phase fs newId (upload_file fs newId dbp p) rest
    else upload_files_phase fs newId dbp rest

/-- Unfolding equation for the file phase on a cons cell. -/
theorem upload_files_phase_cons (fs : Fs) (newId : Path → String)
    (dbp : DbByPath) (p : Path) (rest : List Path) :
    upload_files_phase fs newId dbp (p :: rest) =
      if is_for_sync dbp fs p = true then
        upload_files_phase fs newId (upload_file fs newId dbp p) rest
      else upload_files_phase fs newId dbp rest := rfl

/-- Helper: neither uploader operation ever removes a record. -/
theorem record_isSome_mono (fs : Fs) (newId : Path → String)
    (dbp : DbByPath) (p q : Path) (h : (dbp p).isSome) :
    ((create_dir fs newId dbp q) p).isSome ∧
    ((upload_file fs newId dbp q) p).isSome := by
  constructor
  · unfold create_dir
    cases hq : dbp q with
    | some a => exact h
    | none =>
      by_cases hpq : p = q
      · subst hpq
        simp
      · simp [hpq, h]
  · unfold upload_file
    by_cases hpq : p = q
    · subst hpq
      simp
    · simp [hpq, h]

/-- Helper: the folder phase preserves record presence. -/
theorem folder_phase_isSome_mono (fs : Fs) (newId : Path → String)
    (p : Path) :
    ∀ (l : List Path) (dbp : DbByPath), (dbp p).isSome →
      ((upload_folder_structure fs newId dbp l) p).isSome := by
  intro l
  induction l with
  | nil => intro dbp h; exact h
  | cons q rest ih =>
    intro dbp h
    unfold upload_folder_structure
    by_cases hs : is_for_sync dbp fs q = true
    · simp only [hs, if_true]
      exact ih _ (record_isSome_mono fs newId dbp p q h).1
    · simp only [hs, if_false]
      exact ih _ h

/-- Helper: the file phase preserves record presence. -/
theorem files_phase_isSome_mono (fs : Fs) (newId : Path → String)
    (p : Path) :
    ∀ (l : List Path) (dbp : DbByPath), (dbp p).isSome →
      ((upload_files_phase fs newId dbp l) p).isSome := by
  intro l
  induction l with
  | nil => intro dbp h; exact h
  | cons q rest ih =>
    intro dbp h
    unfold upload_files_phase
    by_cases hs : is_for_sync dbp fs q = true
    · simp only [hs, if_true]
      exact ih _ (record_isSome_mono fs newId dbp p q h).2
    · simp only [hs, if_false]
      exact ih _ h

/-- Helper: after the folder phase, every directory in the processed walk
list has an archive record. -/
theorem folder_phase_records (fs : Fs) (newId : Path → String) :
    ∀ (l : List Path) (dbp : DbByPath) (p : Path), p ∈ l →
      isdirFs fs p = true →
      ((upload_folder_structure fs newId dbp l) p).isSome := by
  intro l
  induction l with
  | nil => intro dbp p h; exact absurd h (List.not_mem_nil p)
  | cons q rest ih =>
    intro dbp p hmem hdir
    unfold upload_folder_structure
    rcases List.mem_cons.mp hmem with hpq | hrest
    · subst hpq
      by_cases hs : is_for_sync dbp fs p = true
      · simp only [hs, if_true]
        apply folder_phase_isSome_mono
        have hnone : dbp p = none := by
          cases hd : dbp p with
          | none => rfl
          | some a =>
            rw [is_for_sync, hd, hdir] at hs
            simp at hs
        unfold create_dir
        rw [hnone]
        simp
      · simp only [hs, if_false]
        apply folder_phase_isSome_mono
        cases hd : dbp p with
        | none => rw [is_for_sync, hd] at hs; simp at hs
        | some a => simp [hd]
    · by_cases hs : is_for_sync dbp fs q = true
      · simp only [hs, if_true]
        exact ih _ p hrest hdir
      · simp only [hs, if_false]
        exact ih _ p hrest hdir

/-- Helper: a present record for a directory makes `is_for_sync` false. -/
theorem is_for_sync_false_of_dir (dbp : DbByPath) (fs : Fs) (p : Path)
    (hdir : isdirFs fs p = true) (hrec : (dbp p).isSome) :
    is_for_sync dbp fs p = false := by
  unfold is_for_sync
  cases hd : dbp p with
  | none => rw [hd] at hrec; simp at hrec
  | some a => simp [hdir]

/-- Freshness: the record for `p` is at least as new as the disk state. -/
def UpToDate (dbp : DbByPath) (fs : Fs) (p : Path) : Prop :=
  ∃ a, dbp p = some a ∧ ¬ date_modified fs p > a.date_modified_on_disk

/-- Helper: uploading any file leaves the target path up to date, and
leaves other paths' up-to-dateness intact. -/
theorem upload_file_upToDate (fs : Fs) (newId : Path → String)
    (dbp : DbByPath) (p q : Path) (h : p = q ∨ UpToDate dbp fs p) :
    UpToDate (upload_file fs newId dbp q) fs p := by
  by_cases hpq : p = q
  · subst hpq
    refine ⟨⟨p, (match dbp p with | some a => a.drive_id | none => newId p),
        date_modified fs p, md5sumFs fs p⟩, ?_, ?_⟩
    · unfold upload_file
      simp
    · simp
  · rcases h with h | ⟨a, ha, hle⟩
    · exact absurd h hpq
    · refine ⟨a, ?_, hle⟩
      unfold upload_file
      simp [hpq, ha]

/-- Helper: the file phase preserves `UpToDate`. -/
theorem files_phase_upToDate_mono (fs : Fs) (newId : Path → String)
    (p : Path) :
    ∀ (l : List Path) (dbp : DbByPath), UpToDate dbp fs p →
      UpToDate (upload_files_phase fs newId dbp l) fs p := by
  intro l
  induction l with
  | nil => intro dbp h; exact h
  | cons q rest ih =>
    intro dbp h
    unfold upload_files_phase
    by_cases hs : is_for_sync dbp fs q = true
    · simp only [hs, if_true]
      exact ih _ (upload_file_upToDate fs newId dbp p q (Or.inr h))
    · simp only [hs, if_false]
      exact ih _ h

/-- Helper: after the file phase every non-directory path of the
processed list is either up to date or a recorded directory. -/
theorem files_phase_result (fs : Fs) (newId : Path → String) :
    ∀ (l : List Path) (dbp : DbByPath) (p : Path), p ∈ l →
      is_for_sync (upload_files_phase fs newId dbp l) fs p = false := by
  intro l
  induction l with
  | nil => intro dbp p h; exact absurd h (List.not_mem_nil p)
  | cons q rest ih =>
    intro dbp p hmem
    rcases List.mem_cons.mp hmem with hpq | hrest
    · subst hpq
      rw [upload_files_phase_cons]
      by_cases hs : is_for_sync dbp fs p = true
      · simp only [hs, if_true]
        by_cases hdir : isdirFs fs p = true
        · apply is_for_sync_false_of_dir _ _ _ hdir
          apply files_phase_isSome_mono
          unfold upload_file
          simp
        · have hup : UpToDate (upload_files_phase fs newId
              (upload_file fs newId dbp p) rest) fs p :=
            files_phase_upToDate_mono fs newId p rest _
              (upload_file_upToDate fs newId dbp p p (Or.inl rfl))
          obtain ⟨a, ha, hle⟩ := hup
          unfold is_for_sync
          rw [ha]
          simp only [Bool.not_eq_true] at hdir
          simp [hdir, hle]
      · simp only [hs, Bool.false_eq_true, if_false]
        by_cases hdir : isdirFs fs p = true
        · apply is_for_sync_false_of_dir _ _ _ hdir
          apply files_phase_isSome_mono
          unfold is_for_sync at hs
          cases hd : dbp p with
          | none => rw [hd] at hs; simp at hs
          | some a => simp [hd]
        · have hup : UpToDate dbp fs p := by
            unfold is_for_sync at hs
            cases hd : dbp p with
            | none => rw [hd] at hs; simp at hs
            | some a =>
              rw [hd] at hs
              simp only [Bool.not_eq_true] at hdir
              simp only [hdir, Bool.false_eq_true, if_false,
                decide_eq_true_eq] at hs
              exact ⟨a, hd, by simpa using hs⟩
          obtain ⟨a, ha, hle⟩ :=
            files_phase_upToDate_mono fs newId p rest _ hup
          unfold is_for_sync
          rw [ha]
          simp only [Bool.not_eq_true] at hdir
          simp [hdir, hle]
    · unfold upload_files_phase
      by_cases hs : is_for_sync dbp fs q = true
      · simp only [hs, if_true]
        exact ih _ p hrest
      · simp only [hs, if_false]
        exact ih _ p hrest

/-- C9: running the upload reconciliation twice with no filesystem change
between the runs enqueues zero candidates the second time.  The `os.walk`
traversal (identical across both runs, since the filesystem and the
blacklist are unchanged) is abstracted as the directory list `walkDirs`
(every element a directory on disk) and the file list `walkFiles`.  After
the first run's folder phase and file phase, `get_folders_to_sync` and
`get_files_to_sync` both yield the empty list. -/
theorem c9_upload_reconciliation_idempotent (fs : Fs)
    (newId : Path → String) (db0 : DbByPath)
    (walkDirs walkFiles : List Path)
    (hdirs : ∀ p ∈ walkDirs, isdirFs fs p = true) :
    get_folders_to_sync
        (upload_files_phase fs newId
          (upload_folder_structure fs newId db0 walkDirs) walkFiles)
        fs walkDirs = [] ∧
    get_files_to_sync
        (upload_files_phase fs newId
          (upload_folder_structure fs newId db0 walkDirs) walkFiles)
        fs walkFiles = [] := by
  constructor
  · apply List.filter_eq_nil_iff.mpr
    intro p hp
    simp only [Bool.not_eq_true]
    apply is_for_sync_false_of_dir _ _ _ (hdirs p hp)
    apply files_phase_isSome_mono
    exact folder_phase_records fs newId walkDirs db0 p hp (hdirs p hp)
  · apply List.filter_eq_nil_iff.mpr
    intro p hp
    simp only [Bool.not_eq_true]
    exact files_phase_result fs newId walkFiles _ p hp

/-- Witness for C9 on a concrete two-entry filesystem: a directory
`["d"]` and a file `["d","f"]`, starting from an empty archive. -/
theorem c9_upload_reconciliation_idempotent_witness :
    get_folders_to_sync
        (upload_files_phase
          (fun p => if p = ["d"] then some ⟨true, 3, ""⟩
                    else if p = ["d", "f"] then some ⟨false, 7, "m"⟩ else none)
          (fun _ => "gid")
          (upload_folder_structure
            (fun p => if p = ["d"] then some ⟨true, 3, ""⟩
                      else if p = ["d", "f"] then some ⟨false, 7, "m"⟩ else none)
            (fun _ => "gid") (fun _ => none) [["d"]]) [["d", "f"]])
        (fun p => if p = ["d"] then some ⟨true, 3, ""⟩
                  else if p = ["d", "f"] then some ⟨false, 7, "m"⟩ else none)
        [["d"]] = [] ∧
    get_files_to_sync
        (upload_files_phase
          (fun p => if p = ["d"] then some ⟨true, 3, ""⟩
                    else if p = ["d", "f"] then some ⟨false, 7, "m"⟩ else none)
          (fun _ => "gid")
          (upload_folder_structure
            (fun p => if p = ["d"] then some ⟨true, 3, ""⟩
                      else if p = ["d", "f"] then some ⟨false, 7, "m"⟩ else none)
            (fun _ => "gid") (fun _ => none) [["d"]]) [["d", "f"]])
        (fun p => if p = ["d"] then some ⟨true, 3, ""⟩
                  else if p = ["d", "f"] then some ⟨false, 7, "m"⟩ else none)
        [["d", "f"]] = [] := by
  apply c9_upload_reconciliation_idempotent
  intro p hp
  simp only [List.mem_singleton] at hp
  subst hp
  decide

/-! ### Transfer queue workers (`uploader.py` / `downloader.py`)

`DriveUploader.upload_queue_worker` and
`DriveDownloader.download_queue_worker` share the same loop: `q.get()`;
a `None` sentinel → `task_done`, break; otherwise process the entry
(`process_queue_entry` — which may raise) and `task_done`.  There is no
`try`/`except`: an exception escapes the loop, killing the worker inside
its executor future (never re-raised anywhere), and `task_done` is not
called for the failing entry.  `wait_for_queue` is `q.join()` followed
(if `stop`) by putting one sentinel per worker; `queue.Queue.join`
unblocks exactly when every `put` has been matched by a `task_done`.
The model below runs one worker over the FIFO queue contents. -/

/-- How a worker's loop ends: blocked forever on `q.get()` of an empty
queue, normal exit via the `None` sentinel, or death by an uncaught
exception from processing an entry. -/
inductive WorkerExit (ε : Type) where
  | blocked_on_get : WorkerExit ε
  | sentinel_exit : WorkerExit ε
  | died : ε → WorkerExit ε
  deriving DecidableEq, Repr

/-- Result of one worker consuming the queue: number of `task_done`
calls, successfully processed entries in order, and how the loop ended. -/
structure WorkerRun (α ε : Type) where
  tasks_done : Nat
  processed : List α
  finish : WorkerExit ε
  deriving DecidableEq, Repr

/-- `upload_queue_worker` / `download_queue_worker` with one worker:
consume queue entries in FIFO order; `none` is the poison-pill sentinel. -/
def upload_queue_worker {α ε : Type} (process : α → Except ε Unit) :
    List (Option α) → WorkerRun α ε
  | [] => ⟨0, [], .blocked_on_get⟩
  | none :: _ => ⟨1, [], .sentinel_exit⟩
  | some entry :: rest =>
    match process entry with
    | .error e => ⟨0, [], .died e⟩
    | .ok _ =>
      let r := upload_queue_worker process rest
      ⟨r.tasks_done + 1, entry :: r.processed, r.finish⟩

/-- `wait_for_queue`'s `q.join()`: with the single worker, `join` returns
iff every enqueued entry received a `task_done`; a dead or blocked worker
performs no further `task_done`, so otherwise the caller blocks forever.
`wait_for_queue` has no exception channel: worker exceptions stay in the
executor futures, whose results are never read. -/
def queue_join_returns {α ε : Type} (process : α → Except ε Unit)
    (queued : List (Option α)) : Bool :=
  (upload_queue_worker process queued).tasks_done == queued.length

/-- C2 counterexample: a queue `[item 1, item 2]` whose processing
function raises on item 1.  The worker dies, nothing is processed, no
`task_done` is issued, and `q.join()` — hence `wait_for_queue` — never
returns: the failure is not re-raised to the caller and `wait` hangs,
contradicting the claim. -/
theorem c2_queue_failure_counterexample :
    (fun n : Nat => if n == 1 then (.error () : Except Unit Unit) else .ok ()) 1
      = .error () ∧
    upload_queue_worker
      (fun n : Nat => if n == 1 then (.error () : Except Unit Unit) else .ok ())
      [some 1, some 2]
      = ⟨0, [], .died ()⟩ ∧
    queue_join_returns
      (fun n : Nat => if n == 1 then (.error () : Except Unit Unit) else .ok ())
      [some 1, some 2] = false := by
  refine ⟨rfl, rfl, rfl⟩

/-- C2 amended: if the items before position `k` all process
successfully and item `k` raises, the (single) worker processes exactly
the items before `k`, issues exactly `k` `task_done` calls, and dies with
the exception; since `k` is strictly less than the number of enqueued
items, `q.join()` never unblocks — `wait_for_queue` hangs instead of
re-raising, and with this worker gone no item after the failing one is
processed. -/
theorem c2_queue_failure_behavior {α ε : Type} (process : α → Except ε Unit)
    (pre : List α) (it : α) (post : List (Option α)) (e : ε)
    (hpre : ∀ x ∈ pre, process x = .ok ())
    (hit : process it = .error e) :
    upload_queue_worker process (pre.map some ++ some it :: post)
      = ⟨pre.length, pre, .died e⟩ ∧
    queue_join_returns process (pre.map some ++ some it :: post) = false := by
  have hrun : upload_queue_worker process (pre.map some ++ some it :: post)
      = ⟨pre.length, pre, .died e⟩ := by
    induction pre with
    | nil =>
      simp only [List.map_nil, List.nil_append, List.length_nil]
      unfold upload_queue_worker
      rw [hit]
    | cons x xs ih =>
      have hx : process x = .ok () := hpre x (List.mem_cons_self x xs)
      have hxs : ∀ y ∈ xs, process y = .ok () :=
        fun y hy => hpre y (List.mem_cons_of_mem x hy)
      simp only [List.map_cons, List.cons_append]
      unfold upload_queue_worker
      rw [hx, ih hxs]
      simp
  refine ⟨hrun, ?_⟩
  unfold queue_join_returns
  rw [hrun]
  simp only [beq_eq_false_iff_ne, ne_eq, List.length_append, List.length_map,
    List.length_cons]
  omega

/-- Witness for the amended C2: items `[10, 20, 30]` with the processor
failing on 20: one item processed, one `task_done`, worker dead, join
never returns. -/
theorem c2_queue_failure_behavior_witness :
    upload_queue_worker
      (fun n : Nat => if n == 20 then (.error 7 : Except Nat Unit) else .ok ())
      [some 10, some 20, some 30]
      = ⟨1, [10], .died 7⟩ ∧
    queue_join_returns
      (fun n : Nat => if n == 20 then (.error 7 : Except Nat Unit) else .ok ())
      [some 10, some 20, some 30] = false := by
  have h := c2_queue_failure_behavior
    (fun n : Nat => if n == 20 then (.error 7 : Except Nat Unit) else .ok ())
    [10] 20 [some 30] 7 ?_ rfl
  · exact h
  · intro x hx
    simp only [List.mem_singleton] at hx
    subst hx
    rfl

/-! ### Retry policy (`googledrive.handle_http_error`) -/

/-- `googledrive.NUM_RETRIES`. -/
def NUM_RETRIES : Nat := 6

/-- `googledrive.RETRYABLE_HTTP_ERROR_CODES = (403, 500)`. -/
def retryable_http_error_code (c : Nat) : Bool := c == 403 || c == 500

/-- How the attempt loop of `handle_http_error` ends. -/
inductive AttemptsEnd (α : Type) where
  | success : α → AttemptsEnd α
  | ignored : AttemptsEnd α
  | exhausted : Option Nat → AttemptsEnd α
  deriving DecidableEq, Repr

/-- Final outcome of a wrapped call: the call's value; a silently
swallowed `None` return (ignore / 404, or `silent` exhaustion); or a
raised HttpError status. -/
inductive RetryOutcome (α : Type) where
  | success : α → RetryOutcome α
  | none_return : RetryOutcome α
  | silenced : RetryOutcome α
  | raised : Nat → RetryOutcome α
  deriving DecidableEq, Repr

/-- Observable behaviour of one wrapped call: number of invocations of
the wrapped function, the `time.sleep` durations in order, the outcome. -/
structure RetryRun (α : Type) where
  calls : Nat
  sleeps : List Nat
  outcome : RetryOutcome α
  deriving DecidableEq, Repr

/-- The `for attempt in range(1, NUM_RETRIES + 1)` loop body of
`handle_http_error.decorated.inner_decorated`:  the wrapped call is
modelled as `f : Nat → Except Nat α` giving, per attempt number, either
a value or an HttpError status.  On success return; on error: if
`ignore` or status 404 return `None`; if the status is retryable sleep
`2 ** attempt`; in every non-returning case fall through to the next
attempt, remembering the error. -/
def retry_attempts {α : Type} (f : Nat → Except Nat α) (ignoreFlag : Bool) :
    List Nat → Option Nat → Nat × List Nat × AttemptsEnd α
  | [], lastError => (0, [], .exhausted lastError)
  | attempt :: rest, _ =>
    match f attempt with
    | .ok v => (1, [], .success v)
    | .error e =>
      if ignoreFlag || e == 404 then (1, [], .ignored)
      else
        let sl := if retryable_http_error_code e then [2 ^ attempt] else []
        let r := retry_attempts f ignoreFlag rest (some e)
        (r.1 + 1, sl ++ r.2.1, r.2.2)

/-- `handle_http_error(silent, ignore)` applied to a wrapped call `f`:
run the attempt loop; after exhaustion return `None` if `silent`, else
re-raise the last error.  (`raise error` with no recorded error is
unreachable for `NUM_RETRIES = 6`; the model maps it to status 0.) -/
def handle_http_error {α : Type} (silent ignoreFlag : Bool)
    (f : Nat → Except Nat α) : RetryRun α :=
  let r := retry_attempts f ignoreFlag (List.range' 1 NUM_RETRIES) none
  { calls := r.1
    sleeps := r.2.1
    outcome :=
      match r.2.2 with
      | .success v => .success v
      | .ignored => .none_return
      | .exhausted lastError =>
        if silent then .silenced
        else .raised (lastError.getD 0) }

/-- C4 counterexample: a wrapped call that always raises HttpError 400 —
neither transient (not 403/500) nor not-found (not 404).  The claim says
such an error propagates immediately without retry (one call); the code
instead calls the function all 6 times (with no backoff sleeps) and only
then raises the last error. -/
theorem c4_retry_counterexample :
    retryable_http_error_code 400 = false ∧
    (400 : Nat) ≠ 404 ∧
    handle_http_error false false (fun _ => (.error 400 : Except Nat Unit))
      = ⟨6, [], .raised 400⟩ ∧
    (6 : Nat) ≠ 1 := by
  refine ⟨rfl, by decide, rfl, by decide⟩

/-- C4 amended: `handle_http_error` (with default `silent=False`,
`ignore=False`) behaves as follows: an immediate success returns the
value after one call with no sleeps; a 404 on the first attempt returns
a null result after one call without raising; a persistent transient
error (500) is retried with doubling backoff sleeps `[2,4,8,16,32,64]`
through all 6 attempts and the last error is then raised; and any other
persistent HttpError status is likewise retried through all 6 attempts —
only without any backoff sleep — before the last error is raised. -/
theorem c4_retry_policy {α : Type} (f g h k : Nat → Except Nat α) (v : α)
    (c : Nat) (hv : f 1 = .ok v) (h404 : g 1 = .error 404)
    (h500 : ∀ a, h a = .error 500)
    (hc404 : c ≠ 404) (hcr : retryable_http_error_code c = false)
    (hk : ∀ a, k a = .error c) :
    handle_http_error false false f = ⟨1, [], .success v⟩ ∧
    handle_http_error false false g = ⟨1, [], .none_return⟩ ∧
    handle_http_error false false h = ⟨6, [2, 4, 8, 16, 32, 64], .raised 500⟩ ∧
    handle_http_error false false k = ⟨6, [], .raised c⟩ := by
  have hc : (c == 404) = false := by
    simp [hc404]
  refine ⟨?_, ?_, ?_, ?_⟩
  · unfold handle_http_error NUM_RETRIES
    simp only [List.range']
    unfold retry_attempts
    rw [hv]
  · unfold handle_http_error NUM_RETRIES
    simp only [List.range']
    unfold retry_attempts
    rw [h404]
    simp
  · unfold handle_http_error NUM_RETRIES
    simp only [List.range']
    norm_num [retry_attempts, h500, retryable_http_error_code]
  · unfold handle_http_error NUM_RETRIES
    simp only [List.range']
    norm_num [retry_attempts, hk, hc, hcr]

/-- Witness for the amended C4, with four concrete wrapped calls. -/
theorem c4_retry_policy_witness :
    handle_http_error false false (fun _ => (.ok 42 : Except Nat Nat))
      = ⟨1, [], .success 42⟩ ∧
    handle_http_error false false (fun _ => (.error 404 : Except Nat Nat))
      = ⟨1, [], .none_return⟩ ∧
    handle_http_error false false (fun _ => (.error 500 : Except Nat Nat))
      = ⟨6, [2, 4, 8, 16, 32, 64], .raised 500⟩ ∧
    handle_http_error false false (fun _ => (.error 401 : Except Nat Nat))
      = ⟨6, [], .raised 401⟩ := by
  have h := c4_retry_policy (fun _ => (.ok 42 : Except Nat Nat))
    (fun _ => .error 404) (fun _ => .error 500) (fun _ => .error 401)
    42 401 rfl rfl (fun _ => rfl) (by decide) (by decide) (fun _ => rfl)
  exact h

/-! ### Remote change poll (`DriveFileCrawler.get_changes_to_download`) -/

/-- One element of the `google.get_changes` response, with the fields the
poll reads: id, trashed flag, modified time, md5 (`""` when absent, per
`file_change.get("md5Checksum", "")`) and mime type. -/
structure ChangeItem where
  id : String
  trashed : Bool
  modifiedTime : Int
  md5Checksum : String
  mimeType : String

/-- `GoogleDrive.FOLDER_MIMETYPE`. -/
def FOLDER_MIMETYPE : String := "application/vnd.google-apps.folder"

/-- The slice of the `DataFile` state the poll touches. -/
structure PollConf where
  last_download_change_token : Int
  last_download_sync_time : Int
  deriving DecidableEq, Repr

/-- `DataFile.set_last_download_change_token`. -/
def set_last_download_change_token (st : PollConf) (tok : Int) : PollConf :=
  { st with last_download_change_token := tok }

/-- Observable events of one generator run: items yielded to the caller,
and the data-file cursor assignment. -/
inductive PollEvent where
  | yielded (sync_decision : Int) (ftype : String) (file_id : String)
      (remote_path : String) (md5checksum : String)
  | set_token (tok : Int)
  deriving DecidableEq, Repr

/-- `is_valid_path` inside `get_changes_to_download`: descend from the
root path and from none of the blacklisted remote paths (the trees
folder). -/
def is_valid_path (root_path : String) (blacklisted_remote : List String)
    (remote_path : String) : Bool :=
  if !remote_path.startsWith root_path then false
  else !blacklisted_remote.any (fun b => remote_path.startsWith b)

/-- The `for change in changes` loop of `get_changes_to_download`: skip
trashed changes, changes older than the last download sync time, and
changes outside the root; otherwise decide via `is_for_download` and
yield every non-NEUTRAL decision with its `#folder`/`#file` tag. -/
def get_changes_loop (denv : DownloadEnv) (remotePath : String → String)
    (root_path : String) (blacklisted_remote : List String)
    (lastSync : Int) : List ChangeItem → List PollEvent
  | [] => []
  | c :: rest =>
    if c.trashed then
      get_changes_loop denv remotePath root_path blacklisted_remote lastSync rest
    else if c.modifiedTime < lastSync then
      get_changes_loop denv remotePath root_path blacklisted_remote lastSync rest
    else if !is_valid_path root_path blacklisted_remote (remotePath c.id) then
      get_changes_loop denv remotePath root_path blacklisted_remote lastSync rest
    else if is_for_download denv c.id c.md5Checksum (some c.modifiedTime)
        ≠ NEUTRAL_FLAG then
      .yielded (is_for_download denv c.id c.md5Checksum (some c.modifiedTime))
          (if c.mimeType == FOLDER_MIMETYPE then "#folder" else "#file")
          c.id (remotePath c.id) c.md5Checksum ::
        get_changes_loop denv remotePath root_path blacklisted_remote lastSync rest
    else
      get_changes_loop denv remotePath root_path blacklisted_remote lastSync rest

/-- `DriveFileCrawler.get_changes_to_download(root_path, update_token)`
as an event trace plus final data-file state.  The `changes` list is the
remote feed read from the stored cursor (or from a fresh start token when
the cursor is `-1`); `startPageToken` is `google.get_start_page_token()`
at exhaustion time.  Only when `update_token` is true does the generator,
after its last yield, assign the new cursor. -/
def get_changes_to_download (denv : DownloadEnv) (remotePath : String → String)
    (root_path : String) (blacklisted_remote : List String) (st : PollConf)
    (changes : List ChangeItem) (update_token : Bool) (startPageToken : Int) :
    List PollEvent × PollConf :=
  let evs := get_changes_loop denv remotePath root_path blacklisted_remote
    st.last_download_sync_time changes
  if update_token then
    (evs ++ [.set_token startPageToken],
      set_last_download_change_token st startPageToken)
  else (evs, st)

/-- Helper: the change loop emits only `yielded` events. -/
theorem get_changes_loop_no_set_token (denv : DownloadEnv)
    (remotePath : String → String) (root_path : String)
    (blacklisted_remote : List String) (lastSync : Int) :
    ∀ (changes : List ChangeItem) (tok : Int),
      PollEvent.set_token tok ∉
        get_changes_loop denv remotePath root_path blacklisted_remote
          lastSync changes := by
  intro changes
  induction changes with
  | nil => intro tok h; exact absurd h (List.not_mem_nil _)
  | cons c rest ih =>
    intro tok
    rw [get_changes_loop]
    split
    · exact ih tok
    · split
      · exact ih tok
      · split
        · exact ih tok
        · split
          · intro h
            rcases List.mem_cons.mp h with h | h
            · exact PollEvent.noConfusion h
            · exact ih tok h
          · exact ih tok

/-- C5: a dry-run poll (`update_token=False`, as used by
`Backuper.download_changes` with `dry_run=True`) leaves the data-file
state untouched and emits no cursor assignment; a committing poll yields
exactly the same items, in the same order, and performs the single
cursor assignment strictly after the last yield, the final state being
the old one with only the cursor replaced.  The yielded prefix is
independent of the commit flag, so polling itself mutates nothing. -/
theorem c5_poll_cursor_discipline (denv : DownloadEnv)
    (remotePath : String → String) (root_path : String)
    (blacklisted_remote : List String) (st : PollConf)
    (changes : List ChangeItem) (startPageToken : Int) :
    ((get_changes_to_download denv remotePath root_path blacklisted_remote
        st changes false startPageToken).2 = st) ∧
    (∀ tok : Int, PollEvent.set_token tok ∉
      (get_changes_to_download denv remotePath root_path blacklisted_remote
        st changes false startPageToken).1) ∧
    ((get_changes_to_download denv remotePath root_path blacklisted_remote
        st changes true startPageToken).1 =
      (get_changes_to_download denv remotePath root_path blacklisted_remote
        st changes false startPageToken).1 ++ [.set_token startPageToken]) ∧
    ((get_changes_to_download denv remotePath root_path blacklisted_remote
        st changes true startPageToken).2 =
      set_last_download_change_token st startPageToken) := by
  refine ⟨rfl, ?_, rfl, rfl⟩
  intro tok
  exact get_changes_loop_no_set_token denv remotePath root_path
    blacklisted_remote st.last_download_sync_time changes tok

/-- Witness for C5 at a one-change feed and a concrete environment. -/
theorem c5_poll_cursor_discipline_witness :
    ((get_changes_to_download
        { dbById := fun _ => none, bl := [], rules := fun _ => false,
          fs := fun _ => none }
        (fun _ => "root/x") "root" [] ⟨3, 0⟩
        [⟨"cid", false, 5, "m", "t"⟩] false 9).2 = ⟨3, 0⟩) ∧
    (PollEvent.set_token 9 ∉
      (get_changes_to_download
        { dbById := fun _ => none, bl := [], rules := fun _ => false,
          fs := fun _ => none }
        (fun _ => "root/x") "root" [] ⟨3, 0⟩
        [⟨"cid", false, 5, "m", "t"⟩] false 9).1) := by
  have h := c5_poll_cursor_discipline
    { dbById := fun _ => none, bl := [], rules := fun _ => false,
      fs := fun _ => none }
    (fun _ => "root/x") "root" [] ⟨3, 0⟩
    [⟨"cid", false, 5, "m", "t"⟩] 9
  exact ⟨h.1, h.2.1 9⟩

/-! ### Removed-items reconciliation
(`Backuper.blacklist_removed_from_gd`, `database.py`)

The `DriveArchive.path` column is text; `model.path.contains(s)` is the
SQL `LIKE '%s%'` substring test.  Rows are therefore modelled here with
their stored path strings as `List Char`.  `Settings.blacklist_path` only
mutates the settings blacklist (modelled in the component-path model
above); in this flow it is abstracted as the parameter `blw`. -/

/-- One row of the `DriveArchive` table, database view: the stored path
string, the remote id, and the remaining columns. -/
structure ArchiveRow where
  path : List Char
  drive_id : String
  date_modified_on_disk : Int
  md5sum : String
  deriving DecidableEq, Repr

/-- `db.GoogleDriveDB.get("drive_id", fid)`: first row with that id. -/
def db_get_by_drive_id (table : List ArchiveRow) (fid : String) :
    Option ArchiveRow :=
  table.find? (fun r => r.drive_id == fid)

/-- `model.delete().where(model.path.contains(needle)).execute()`:
delete every row whose path contains `needle` as a substring. -/
def delete_path_contains (table : List ArchiveRow) (needle : List Char) :
    List ArchiveRow :=
  table.filter (fun r => !(decide (needle <:+: r.path)))

/-- Loop body of `Backuper.blacklist_removed_from_gd` for one removed id
(as produced by `get_removed_from_gd`): if the id has an archive row,
blacklist its path (`blw` — the settings-side effect) and delete every
row whose path contains it. -/
def blacklist_removed_step {β : Type} (blw : β → List Char → β)
    (st : β × List ArchiveRow) (fid : String) : β × List ArchiveRow :=
  match db_get_by_drive_id st.2 fid with
  | none => st
  | some archive =>
    (blw st.1 archive.path, delete_path_contains st.2 archive.path)

/-- `Backuper.blacklist_removed_from_gd`: fold the loop body over the
removed ids.  (The trailing `clean_blacklisted_paths` call only touches
the settings blacklist, not the archive table.) -/
def blacklist_removed_from_gd {β : Type} (blw : β → List Char → β)
    (st : β × List ArchiveRow) (removed_ids : List String) :
    β × List ArchiveRow :=
  removed_ids.foldl (blacklist_removed_step blw) st

/-- Pairwise-distinct remote ids, the `drive_id` UNIQUE constraint. -/
def UniqueIds (table : List ArchiveRow) : Prop :=
  table.Pairwise (fun r s => r.drive_id ≠ s.drive_id)

/-- No row of the table contains `needle` in its path. -/
def NoPathContains (needle : List Char) (table : List ArchiveRow) : Prop :=
  ∀ r ∈ table, ¬ needle <:+: r.path

/-- Helper: one step only deletes rows. -/
theorem blacklist_removed_step_sublist {β : Type} (blw : β → List Char → β)
    (st : β × List ArchiveRow) (fid : String) :
    List.Sublist (blacklist_removed_step blw st fid).2 st.2 := by
  unfold blacklist_removed_step
  cases h : db_get_by_drive_id st.2 fid with
  | none => exact List.Sublist.refl _
  | some a => exact List.filter_sublist _

/-- Helper: the whole run only deletes rows. -/
theorem blacklist_removed_run_sublist {β : Type} (blw : β → List Char → β) :
    ∀ (l : List String) (st : β × List ArchiveRow),
      List.Sublist (blacklist_removed_from_gd blw st l).2 st.2 := by
  intro l
  induction l with
  | nil => intro st; exact List.Sublist.refl _
  | cons x xs ih =>
    intro st
    exact (ih (blacklist_removed_step blw st x)).trans
      (blacklist_removed_step_sublist blw st x)

/-- Helper: a lookup hit under unique ids is determined by membership. -/
theorem db_get_by_drive_id_of_mem (fid : String) :
    ∀ (table : List ArchiveRow), UniqueIds table →
      ∀ a ∈ table, a.drive_id = fid →
        db_get_by_drive_id table fid = some a := by
  intro table
  induction table with
  | nil => intro _ a ha; exact absurd ha (List.not_mem_nil a)
  | cons b rest ih =>
    intro huniq a ha hid
    rcases List.pairwise_cons.mp huniq with ⟨hb, hrest⟩
    rcases List.mem_cons.mp ha with h | h
    · subst h
      unfold db_get_by_drive_id
      rw [List.find?_cons_of_pos _ (by simp [hid])]
    · have hbf : (b.drive_id == fid) = false := by
        have := hb a h
        rw [hid] at this
        simp [this]
      unfold db_get_by_drive_id
      rw [List.find?_cons_of_neg _ (by simp [hbf])]
      exact ih hrest a h hid

/-- Helper: deleting by containment establishes `NoPathContains`. -/
theorem delete_path_contains_no_contains (table : List ArchiveRow)
    (needle : List Char) :
    NoPathContains needle (delete_path_contains table needle) := by
  intro r hr
  rcases List.mem_filter.mp hr with ⟨_, hpred⟩
  simpa using hpred

/-- Helper: `NoPathContains` is preserved by any sublist. -/
theorem no_path_contains_sublist {needle : List Char}
    {t t' : List ArchiveRow} (hsub : List.Sublist t' t)
    (h : NoPathContains needle t) : NoPathContains needle t' :=
  fun r hr => h r (hsub.subset hr)

/-- Helper (main induction): if the given removed id has a row with path
`F` in the current table — or no row's path contains `F` any more — then
after the run that processes the id, no row's path contains `F`. -/
theorem blacklist_removed_run_clears {β : Type} (blw : β → List Char → β)
    (F : List Char) (fid : String) :
    ∀ (l : List String) (conf : β) (table : List ArchiveRow),
      UniqueIds table →
      ((∃ a, db_get_by_drive_id table fid = some a ∧ a.path = F) ∨
        NoPathContains F table) →
      fid ∈ l →
      NoPathContains F (blacklist_removed_from_gd blw (conf, table) l).2 := by
  intro l
  induction l with
  | nil => intro conf table _ _ hmem; exact absurd hmem (List.not_mem_nil fid)
  | cons x xs ih =>
    intro conf table huniq hcase hmem
    have hstep : blacklist_removed_from_gd blw (conf, table) (x :: xs)
        = blacklist_removed_from_gd blw
            (blacklist_removed_step blw (conf, table) x) xs := rfl
    rw [hstep]
    have huniq' : UniqueIds (blacklist_removed_step blw (conf, table) x).2 :=
      List.Pairwise.sublist
        (blacklist_removed_step_sublist blw (conf, table) x) huniq
    rcases hcase with ⟨a, hfind, hpath⟩ | hno
    · have hamem : a ∈ table := List.mem_of_find?_eq_some hfind
      have haid : a.drive_id = fid := by
        have := List.find?_some hfind
        simpa using this
      by_cases hx : x = fid
      · subst hx
        have hstep2 : (blacklist_removed_step blw (conf, table) x).2
            = delete_path_contains table a.path := by
          unfold blacklist_removed_step
          rw [hfind]
        have hclear : NoPathContains F
            (blacklist_removed_step blw (conf, table) x).2 := by
          rw [hstep2, hpath]
          exact delete_path_contains_no_contains table F
        exact no_path_contains_sublist
          (blacklist_removed_run_sublist blw xs _) hclear
      · have hmem' : fid ∈ xs := by
          rcases List.mem_cons.mp hmem with h | h
          · exact absurd h.symm hx
          · exact h
        cases hlook : db_get_by_drive_id table x with
        | none =>
          have hstep2 : blacklist_removed_step blw (conf, table) x
              = (conf, table) := by
            unfold blacklist_removed_step
            rw [hlook]
          rw [hstep2]
          exact ih conf table huniq (Or.inl ⟨a, hfind, hpath⟩) hmem'
        | some c =>
          have hstep2 : (blacklist_removed_step blw (conf, table) x).2
              = delete_path_contains table c.path := by
            unfold blacklist_removed_step
            rw [hlook]
          by_cases hkeep : c.path <:+: a.path
          · have hclear : NoPathContains F
                (blacklist_removed_step blw (conf, table) x).2 := by
              rw [hstep2]
              intro r hr hFr
              rcases List.mem_filter.mp hr with ⟨_, hpred⟩
              have : c.path <:+: r.path := by
                subst hpath
                exact hkeep.trans hFr
              simp [this] at hpred
            exact no_path_contains_sublist
              (blacklist_removed_run_sublist blw xs _) hclear
          · have hamem' : a ∈ (blacklist_removed_step blw (conf, table) x).2 := by
              rw [hstep2]
              exact List.mem_filter.mpr ⟨hamem, by simp [hkeep]⟩
            have hfind' : db_get_by_drive_id
                (blacklist_removed_step blw (conf, table) x).2 fid = some a :=
              db_get_by_drive_id_of_mem fid _ huniq' a hamem' haid
            exact ih (blacklist_removed_step blw (conf, table) x).1
              (blacklist_removed_step blw (conf, table) x).2 huniq'
              (Or.inl ⟨a, hfind', hpath⟩) hmem'
    · have hno' : NoPathContains F (blacklist_removed_step blw (conf, table) x).2 :=
        no_path_contains_sublist
          (blacklist_removed_step_sublist blw (conf, table) x) hno
      exact no_path_contains_sublist
        (blacklist_removed_run_sublist blw xs _) hno'


/-- C7: if the removed-items flow reports the id of an archived folder
path `F` (ids are unique per the table's UNIQUE constraint), then after
`blacklist_removed_from_gd` processes the removed ids, every archive row
whose path starts with `F` — `F` itself and all descendants — has been
deleted: no row of the final table has `F` as a path prefix.  (The SQL
`contains` deletion removes a superset of the prefix matches.) -/
theorem c7_removed_folder_subtree_cascade {β : Type}
    (blw : β → List Char → β) (conf : β) (table : List ArchiveRow)
    (removed_ids : List String) (fid : String) (a : ArchiveRow)
    (huniq : UniqueIds table)
    (hfind : db_get_by_drive_id table fid = some a)
    (hmem : fid ∈ removed_ids) :
    (blacklist_removed_from_gd blw (conf, table) removed_ids).2.all
      (fun r => !(decide (a.path <+: r.path))) = true := by
  have h := blacklist_removed_run_clears blw a.path fid removed_ids conf table
    huniq (Or.inl ⟨a, hfind, rfl⟩) hmem
  rw [List.all_eq_true]
  intro r hr
  have hnc := h r hr
  simp only [Bool.not_eq_true', decide_eq_false_iff_not]
  intro hpref
  exact hnc hpref.isInfix

/-- Witness for C7: a three-row table where the folder `/b` (id "idB")
is removed; afterwards no row's path starts with `/b`. -/
theorem c7_removed_folder_subtree_cascade_witness :
    (blacklist_removed_from_gd (fun (u : Unit) _ => u)
        ((), [⟨"/b".toList, "idB", 0, ""⟩,
              ⟨"/b/c".toList, "idC", 0, "m"⟩,
              ⟨"/d".toList, "idD", 0, "n"⟩])
        ["idB"]).2.all
      (fun r => !(decide ("/b".toList <+: r.path))) = true := by
  have h := c7_removed_folder_subtree_cascade (fun (u : Unit) _ => u) ()
    [⟨"/b".toList, "idB", 0, ""⟩, ⟨"/b/c".toList, "idC", 0, "m"⟩,
     ⟨"/d".toList, "idD", 0, "n"⟩]
    ["idB"] "idB" ⟨"/b".toList, "idB", 0, ""⟩
    (by unfold UniqueIds; decide) (by decide) (by decide)
  exact h

/-- C8: the removed-items deletion matches by substring containment, not
by path prefix: removing the archived path `/b` (id "idB") also deletes
the row `/a/b` (id "idA"), whose path merely contains `/b` as a substring
— it is neither `/b` itself nor a descendant of it (no `/b` prefix). -/
theorem c8_removed_deletion_matches_substring :
    ¬ ("/b".toList <+: "/a/b".toList) ∧
    ("/a/b".toList ≠ "/b".toList) ∧
    ("/b".toList <:+: "/a/b".toList) ∧
    (⟨"/a/b".toList, "idA", 0, "m"⟩ : ArchiveRow) ∉
      (blacklist_removed_from_gd (fun (u : Unit) _ => u)
        ((), [⟨"/b".toList, "idB", 0, ""⟩, ⟨"/a/b".toList, "idA", 0, "m"⟩])
        ["idB"]).2 := by
  refine ⟨by decide, by decide, by decide, by decide⟩

end Backuper
